import Mathlib

/-!
Verification development for the gamerun video optimizer server.

The repository has two server variants:
* `src/server.js` — `exec`-based: the `/api/download` remote-fetch pipeline and
  the `/api/compress` background job both build a single shell command string;
* `src/unnamed/part_000` — `spawn`-based: `spawnFFmpeg` passes an argument
  vector, parses ffmpeg progress from stderr, and the retention scheduler
  (`scheduleFileDeletion` / `cancelFileDeletion`) manages deletion timers.

This file shallowly embeds both variants' job lifecycle, progress parser,
retention scheduler and pipelines, and proves/refutes the frozen claims.
-/

namespace GameRun

/-! ## Preset catalog (`presets` object, identical in both variants) -/

/-- A transcode preset.  In the JS source all fields are strings; `maxSize`
is a string like `"1400M"` whose numeric prefix is what `parseInt` extracts
(`maxSizeMB` below).  We keep the numeric fields as numerals and the encoder
speed profile as a string. -/
structure Preset where
  resolution : Nat
  fps : Nat
  crf : Nat
  speed : String
  maxSizeMB : Nat
  deriving Repr, DecidableEq

def balancedPreset : Preset := ⟨1080, 30, 23, "medium", 1400⟩
def efficientPreset : Preset := ⟨720, 30, 28, "fast", 800⟩
def minimalPreset : Preset := ⟨720, 24, 32, "veryfast", 500⟩

/-- Property lookup `presets[name]` on the `presets` object: `undefined`
(`none`) for any name that is not one of the three keys. -/
def presets : String → Option Preset
  | "balanced" => some balancedPreset
  | "efficient" => some efficientPreset
  | "minimal" => some minimalPreset
  | _ => none

/-- Intake resolution `const { preset = 'balanced' } = req.body` followed by `presets[preset]`:
the destructuring default applies only when the field is absent
(`none`); the resulting name is then looked up in the catalog. -/
def resolvePresetField (field : Option String) : Option Preset :=
  presets (field.getD "balanced")

/-! ## External-tool invocations (C3)

`exec(cmd)` hands one string to a shell; `spawn(exe, args)` passes a
discrete argument vector.  We record which launcher each call site uses
and the exact data it is built from. -/

inductive Invocation where
  | shell (cmd : String)
  | argv (exe : String) (args : List String)
  deriving Repr, DecidableEq

def Invocation.isArgv : Invocation → Bool
  | .shell _ => false
  | .argv _ _ => true

/-- The `downloadCmd` template string of `src/server.js` line 137: the
user-supplied URL and the preset-derived resolution are concatenated into
one shell command. -/
def ytDlpCmd (resolution : Nat) (tempFile url : String) : String :=
  "yt-dlp --extractor-args \"youtube:player_client=android\" --user-agent \"com.google.android.youtube/17.36.4 (Linux; U; Android 12; GB) gzip\" -f \"bestvideo[height<="
    ++ toString resolution
    ++ "][ext=mp4]+bestaudio[ext=m4a]/best\" --merge-output-format mp4 -o \""
    ++ tempFile ++ "\" \"" ++ url ++ "\""

/-- The `compressCmd` template string of `src/server.js` lines 146/217:
input/output paths and preset fields concatenated into one shell command.
(The uploaded input path embeds the client-chosen original file name.) -/
def ffmpegShellCmd (inputFile outputFile : String) (cfg : Preset) : String :=
  "ffmpeg -i \"" ++ inputFile ++ "\" -vcodec libx264 -crf " ++ toString cfg.crf
    ++ " -preset " ++ cfg.speed
    ++ " -vf scale=-2:" ++ toString cfg.resolution
    ++ " -r " ++ toString cfg.fps
    ++ " -fs " ++ toString cfg.maxSizeMB ++ "M"
    ++ " -movflags +faststart -y \"" ++ outputFile ++ "\""

/-- The `args` array of `spawnFFmpeg` in `src/unnamed/part_000` lines
100-112: each datum is its own vector element, never joined into a shell
string. -/
def spawnFFmpegArgs (inputFile outputFile : String) (cfg : Preset) : List String :=
  [ "-i", inputFile
  , "-vcodec", "libx264"
  , "-crf", toString cfg.crf
  , "-preset", cfg.speed
  , "-vf", "scale=-2:" ++ toString cfg.resolution
  , "-r", toString cfg.fps
  , "-fs", toString cfg.maxSizeMB ++ "M"
  , "-movflags", "+faststart"
  , "-progress", "pipe:2"
  , "-y", outputFile ]

/-- Launches `await execCommand(downloadCmd)` — shell-interpreted. -/
def downloadInvocation (cfg : Preset) (tempFile url : String) : Invocation :=
  .shell (ytDlpCmd cfg.resolution tempFile url)

/-- Launches `await execCommand(compressCmd)` — shell-interpreted. -/
def compressInvocation (inputFile outputFile : String) (cfg : Preset) : Invocation :=
  .shell (ffmpegShellCmd inputFile outputFile cfg)

/-- Launches `spawn('ffmpeg', args)` — discrete argument vector. -/
def spawnFFmpegInvocation (inputFile outputFile : String) (cfg : Preset) : Invocation :=
  .argv "ffmpeg" (spawnFFmpegArgs inputFile outputFile cfg)

/-! ## Progress parser (`spawnFFmpeg` stderr handler, part_000 lines 121-151)

A stderr chunk is abstracted by the results of the two regex probes the
handler runs on its text: the first `Duration: hh:mm:ss.s` match and the
first `time=hh:mm:ss.s` match, each as an (hours, minutes, seconds) triple.
`parseInt`/`parseFloat` on the matched digit groups give a natural number of
hours and minutes and a nonnegative rational number of seconds. -/

/-- An `hh:mm:ss.s` triple extracted by a regex match. -/
structure Hms where
  hours : Nat
  minutes : Nat
  seconds : ℚ
  deriving Repr, DecidableEq

/-- Seconds encoded by the triple: `hours * 3600 + minutes * 60 + seconds`. -/
def Hms.toSeconds (t : Hms) : ℚ :=
  t.hours * 3600 + t.minutes * 60 + t.seconds

/-- One stderr `data` event: the outcome of the Duration regex and of the
time regex on the chunk's text. -/
structure Chunk where
  dur : Option Hms
  time : Option Hms
  deriving Repr, DecidableEq

/-- The parser's mutable closure state: `duration` (seconds, 0 until a
Duration match is accepted) and `lastProgress` (last emitted percentage,
starts at 0). -/
structure ParserState where
  duration : ℚ
  lastProgress : ℤ
  deriving Repr, DecidableEq

def ParserState.init : ParserState := ⟨0, 0⟩

/-- The duration probe guarded by `if (duration === 0)`: accept the chunk's
duration marker only while the stored duration is still the 0 sentinel. -/
def probeDuration (st : ParserState) (c : Chunk) : ParserState :=
  if st.duration = 0 then
    match c.dur with
    | some d => { st with duration := d.toSeconds }
    | none => st
  else st

/-- One stderr `data` callback run: probe for a duration marker only while
`duration === 0`; then, if a time marker is present and `duration > 0`,
compute `min(round(currentTime / duration * 100), 99)` and emit it exactly
when it strictly exceeds `lastProgress`.  Returns the new state and the
emitted percentage, if any. -/
def processChunk (st : ParserState) (c : Chunk) : ParserState × Option ℤ :=
  let st1 := probeDuration st c
  match c.time with
  | some t =>
    if 0 < st1.duration then
      let currentTime := t.toSeconds
      let progress := min (round (currentTime / st1.duration * 100)) 99
      if st1.lastProgress < progress then
        ({ st1 with lastProgress := progress }, some progress)
      else (st1, none)
    else (st1, none)
  | none => (st1, none)

/-- Feed a chunk sequence from a given state, collecting emissions in order. -/
def runParserFrom (st : ParserState) : List Chunk → ParserState × List ℤ
  | [] => (st, [])
  | c :: cs =>
    let (st1, em) := processChunk st c
    let (st2, ems) := runParserFrom st1 cs
    (st2, match em with | some p => p :: ems | none => ems)

def runParser (cs : List Chunk) : ParserState × List ℤ :=
  runParserFrom ParserState.init cs

/-- The duration encoded by the first duration marker of the chunk
sequence, if any marker occurs at all. -/
def firstDurationMarker : List Chunk → Option Hms
  | [] => none
  | c :: cs => match c.dur with | some d => some d | none => firstDurationMarker cs

/-! ## Job registry snapshots (part_000 variant)

Each `jobs.set` writes a plain object; we model the union of all fields
that any write can carry, absent fields being `none`.  JS numbers written
to `progress` are the integers 0, 5, 100 and `Math.round` results. -/

/-- The `stats` object of the success write. -/
structure Stats where
  originalSize : ℤ
  compressedSize : ℤ
  reduction : ℤ
  deriving Repr, DecidableEq

structure Job where
  status : String
  progress : ℤ
  inputFile : Option String := none
  preset : Option String := none
  downloadUrl : Option String := none
  stats : Option Stats := none
  error : Option String := none
  deriving Repr, DecidableEq

/-- The intake write of `/api/compress`. -/
def intakeJob (inputFile presetName : String) : Job :=
  { status := "processing", progress := 0
    inputFile := some inputFile, preset := some presetName }

/-- The write `jobs.set(jobId, { ...jobs.get(jobId), status: 'compressing', progress: 5 })`. -/
def compressingWrite (j : Job) : Job :=
  { j with status := "compressing", progress := 5 }

/-- The terminal success write: a fresh object literal (no spread). -/
def completeJob (downloadUrl : String) (st : Stats) : Job :=
  { status := "complete", progress := 100
    downloadUrl := some downloadUrl, stats := some st }

/-- The terminal failure write: a fresh object literal (no spread). -/
def errorJob : Job :=
  { status := "error", progress := 0, error := some "Failed to compress video" }

/-- The stderr-callback registry writes during the ffmpeg run: each emitted
percentage performs `jobs.set(jobId, { ...job, progress })` on the current
snapshot. -/
def progressWrites (j : Job) (st : ParserState) : List Chunk → List Job
  | [] => []
  | c :: cs =>
    let (st1, em) := processChunk st c
    match em with
    | some p =>
      let j1 := { j with progress := p }
      j1 :: progressWrites j1 st1 cs
    | none => progressWrites j st1 cs

/-- The full sequence of snapshots written to the registry over one
`/api/compress` job (part_000 lines 226-231 and 245-283): intake, the
`compressing`/5 write, the parser-driven writes, then exactly one terminal
write.  An unrecognized preset name makes `config` `undefined`, so
`spawnFFmpeg` rejects on `config.crf` before any stderr event and the job
takes the failure path with no progress writes.  `ffmpegOk` tells whether
the ffmpeg run (and the follow-up stat/unlink) succeeded. -/
def registryWrites (inputFile presetName : String) (chunks : List Chunk)
    (ffmpegOk : Bool) (downloadUrl : String) (st : Stats) : List Job :=
  let j0 := intakeJob inputFile presetName
  let j1 := compressingWrite j0
  match presets presetName with
  | none => [j0, j1, errorJob]
  | some _ =>
    j0 :: j1 :: (progressWrites j1 ParserState.init chunks
      ++ [if ffmpegOk then completeJob downloadUrl st else errorJob])

/-- The progress values a status poller can observe, in write order. -/
def progressTrace (inputFile presetName : String) (chunks : List Chunk)
    (ffmpegOk : Bool) (downloadUrl : String) (st : Stats) : List ℤ :=
  (registryWrites inputFile presetName chunks ffmpegOk downloadUrl st).map Job.progress

/-! ## Retention scheduler (part_000 lines 169-191 and 291-302)

`fileDeletionTimers` is a `Map` from path to the latest timer id; a
`setTimeout` handle stays alive until it fires or is `clearTimeout`ed,
independently of the map.  We model the map as an association list, the set
of live timeout handles explicitly, the output-directory filesystem as a
path list, and the job registry by its key set. -/

/-- One live `setTimeout` handle created by `scheduleFileDeletion`. -/
structure Timer where
  id : Nat
  path : String
  fireAt : Nat
  jobId : Option String
  deriving Repr, DecidableEq

/-- Models `Map.get`. -/
def lookupA (l : List (String × Nat)) (k : String) : Option Nat :=
  match l with
  | [] => none
  | (k', v) :: rest => if k' = k then some v else lookupA rest k

/-- Models `Map.delete`. -/
def eraseA (l : List (String × Nat)) (k : String) : List (String × Nat) :=
  l.filter (fun e => e.1 ≠ k)

/-- Models `Map.set` — replaces the entry for the key, if any. -/
def insertA (l : List (String × Nat)) (k : String) (v : Nat) : List (String × Nat) :=
  (k, v) :: eraseA l k

structure SchedState where
  nextId : Nat
  live : List Timer
  table : List (String × Nat)
  files : List String
  jobs : List String
  deriving Repr, DecidableEq

/-- Milliseconds of delay: `delayMinutes * 60 * 1000`. -/
def delayMs (delayMinutes : Nat) : Nat := delayMinutes * 60 * 1000

/-- Models `scheduleFileDeletion(filePath, delayMinutes, jobId)`: creates a fresh
`setTimeout` and stores its id in `fileDeletionTimers` — overwriting the
map entry for `filePath` without clearing any previously armed timeout. -/
def scheduleFileDeletion (s : SchedState) (filePath : String) (delayMinutes : Nat)
    (jobId : Option String) (now : Nat) : SchedState :=
  { s with
    nextId := s.nextId + 1
    live := ⟨s.nextId, filePath, now + delayMs delayMinutes, jobId⟩ :: s.live
    table := insertA s.table filePath s.nextId }

/-- Models `cancelFileDeletion(filePath)`: if the map has an id for the path,
`clearTimeout` it and delete the map entry; otherwise no-op. -/
def cancelFileDeletion (s : SchedState) (filePath : String) : SchedState :=
  match lookupA s.table filePath with
  | some tid =>
    { s with
      live := s.live.filter (fun t => t.id ≠ tid)
      table := eraseA s.table filePath }
  | none => s

/-- Classification of one timeout-callback run. -/
inductive FireOutcome where
  | notFired
  | deleted
  | alreadyAbsent
  deriving Repr, DecidableEq

/-- The `setTimeout` callback of timer `tid` runs at wall-clock `now`: it can
only run if the handle is live and its deadline has passed, and the handle is
spent either way.  On a successful `unlink` it clears the map entry for the
path and, when a job id was captured, deletes the registry entry; if the file
is already absent, `unlink` rejects with `ENOENT`, the `catch` silences it,
and none of those deletions run. -/
def fireTimer (s : SchedState) (tid : Nat) (now : Nat) : SchedState × FireOutcome :=
  match s.live.find? (fun t => t.id = tid) with
  | none => (s, .notFired)
  | some t =>
    if now < t.fireAt then (s, .notFired)
    else
      let s1 := { s with live := s.live.filter (fun u => u.id ≠ tid) }
      if t.path ∈ s1.files then
        ({ s1 with
           files := s1.files.filter (· ≠ t.path)
           table := eraseA s1.table t.path
           jobs := match t.jobId with
                   | some j => s1.jobs.filter (· ≠ j)
                   | none => s1.jobs }, .deleted)
      else
        (s1, .alreadyAbsent)

/-- The path `path.join(OUTPUT_DIR, jobId + '.mp4')`. -/
def outputPath (jobId : String) : String := "output/" ++ jobId ++ ".mp4"

inductive DlResult where
  | served
  | notFound
  deriving Repr, DecidableEq

/-- Handler `GET /api/download/:jobId` (part_000 lines 291-302): `fs.access`, then
`cancelFileDeletion(filePath)`, then `res.download` whose completion callback
re-arms a 5-minute deletion only when the transfer finished without error. -/
def downloadEndpoint (s : SchedState) (jobId : String) (now : Nat) (streamOk : Bool) :
    DlResult × SchedState :=
  let filePath := outputPath jobId
  if filePath ∈ s.files then
    let s1 := cancelFileDeletion s filePath
    if streamOk then (.served, scheduleFileDeletion s1 filePath 5 (some jobId) now)
    else (.served, s1)
  else (.notFound, s)

/-- The success epilogue of `processCompressionJob` (part_000 line 262): arm
the retention scheduler for the output artifact with the 20-minute default
delay, associating the job id. -/
def armCompletionRetention (s : SchedState) (jobId : String) (now : Nat) : SchedState :=
  scheduleFileDeletion s (outputPath jobId) 20 (some jobId) now

/-! ## Remote-fetch pipeline (`/api/download` handler, src/server.js 122-170) -/

inductive PipeAction where
  | runDownloader (inv : Invocation)
  | statTemp
  | runTranscoder (inv : Invocation)
  | unlinkTemp
  | renameTempToOutput
  deriving Repr, DecidableEq

/-- The action sequence of a successful `/api/download` run: download via
yt-dlp, `fs.stat` the fetched file, then compare
`stats.size / (1024*1024) > parseInt(config.maxSize)` — transcode and unlink
the temp file when over, rename directly when not over. -/
def remoteFetchActions (url jobId : String) (cfg : Preset) (fetchedBytes : Nat) :
    List PipeAction :=
  PipeAction.runDownloader
      (downloadInvocation cfg ("temp/" ++ jobId ++ "_raw.mp4") url) ::
  PipeAction.statTemp ::
  (if (cfg.maxSizeMB : ℚ) < (fetchedBytes : ℚ) / (1024 * 1024) then
    [PipeAction.runTranscoder
        (compressInvocation ("temp/" ++ jobId ++ "_raw.mp4") (outputPath jobId) cfg),
     PipeAction.unlinkTemp]
  else
    [PipeAction.renameTempToOutput])

/-- Whether a pipeline action list ever invokes the transcoder. -/
def invokesTranscoder (acts : List PipeAction) : Prop :=
  ∃ inv, PipeAction.runTranscoder inv ∈ acts

instance (acts : List PipeAction) : Decidable (invokesTranscoder acts) := by
  unfold invokesTranscoder
  induction acts with
  | nil => exact .isFalse (by simp)
  | cons a rest ih =>
    cases ih with
    | isTrue h =>
      exact .isTrue (by obtain ⟨inv, hi⟩ := h; exact ⟨inv, List.mem_cons_of_mem _ hi⟩)
    | isFalse h =>
      match a with
      | .runTranscoder inv => exact .isTrue ⟨inv, List.mem_cons_self _ _⟩
      | .runDownloader inv =>
        exact .isFalse (by
          rintro ⟨i, hi⟩
          rcases List.mem_cons.mp hi with h1 | h1
          · cases h1
          · exact h ⟨i, h1⟩)
      | .statTemp =>
        exact .isFalse (by
          rintro ⟨i, hi⟩
          rcases List.mem_cons.mp hi with h1 | h1
          · cases h1
          · exact h ⟨i, h1⟩)
      | .unlinkTemp =>
        exact .isFalse (by
          rintro ⟨i, hi⟩
          rcases List.mem_cons.mp hi with h1 | h1
          · cases h1
          · exact h ⟨i, h1⟩)
      | .renameTempToOutput =>
        exact .isFalse (by
          rintro ⟨i, hi⟩
          rcases List.mem_cons.mp hi with h1 | h1
          · cases h1
          · exact h ⟨i, h1⟩)

/-! ## Parser lemmas -/

theorem probeDuration_lastProgress (st : ParserState) (c : Chunk) :
    (probeDuration st c).lastProgress = st.lastProgress := by
  unfold probeDuration
  split
  · cases c.dur <;> rfl
  · rfl

theorem probeDuration_of_ne_zero (st : ParserState) (c : Chunk) (h : st.duration ≠ 0) :
    probeDuration st c = st := by
  unfold probeDuration
  exact if_neg h

theorem probeDuration_of_dur_none (st : ParserState) (c : Chunk) (h : c.dur = none) :
    probeDuration st c = st := by
  unfold probeDuration
  split
  · rw [h]
  · rfl

theorem probeDuration_duration_of_zero (st : ParserState) (c : Chunk) (d : Hms)
    (h0 : st.duration = 0) (hd : c.dur = some d) :
    (probeDuration st c).duration = d.toSeconds := by
  unfold probeDuration
  rw [if_pos h0, hd]

/-- Each callback run either emits nothing and keeps `lastProgress`, or emits
a value equal to the new `lastProgress`, strictly above the old one and at
most 99.  The stored duration is whatever the duration probe produced. -/
theorem processChunk_spec (st : ParserState) (c : Chunk) :
    (processChunk st c).1.duration = (probeDuration st c).duration
    ∧ (((processChunk st c).2 = none
          ∧ (processChunk st c).1.lastProgress = st.lastProgress)
        ∨ (∃ p, (processChunk st c).2 = some p
            ∧ (processChunk st c).1.lastProgress = p
            ∧ st.lastProgress < p ∧ p ≤ 99)) := by
  unfold processChunk
  cases ht : c.time with
  | none =>
    exact ⟨rfl, Or.inl ⟨rfl, probeDuration_lastProgress st c⟩⟩
  | some t =>
    simp only
    split
    · split
      · rename_i hlt
        refine ⟨rfl, Or.inr ⟨_, rfl, rfl, ?_, min_le_right _ _⟩⟩
        rw [← probeDuration_lastProgress st c]
        exact hlt
      · exact ⟨rfl, Or.inl ⟨rfl, probeDuration_lastProgress st c⟩⟩
    · exact ⟨rfl, Or.inl ⟨rfl, probeDuration_lastProgress st c⟩⟩

/-- Emissions from any starting state are strictly increasing, all strictly
above the starting `lastProgress`, and all at most 99. -/
theorem runParserFrom_emissions (cs : List Chunk) (st : ParserState) :
    List.Chain' (· < ·) (runParserFrom st cs).2
    ∧ ∀ p ∈ (runParserFrom st cs).2, st.lastProgress < p ∧ p ≤ 99 := by
  induction cs generalizing st with
  | nil => simp [runParserFrom]
  | cons c cs ih =>
    obtain ⟨-, hspec⟩ := processChunk_spec st c
    have hrec := ih (processChunk st c).1
    rcases hspec with ⟨hnone, hkeep⟩ | ⟨p, hsome, hlp, hgt, hle⟩
    · constructor
      · simpa [runParserFrom, hnone] using hrec.1
      · intro q hq
        rw [runParserFrom] at hq
        simp only [hnone] at hq
        obtain ⟨h1, h2⟩ := hrec.2 q hq
        exact ⟨by rw [← hkeep]; exact h1, h2⟩
    · constructor
      · rw [runParserFrom]
        simp only [hsome]
        refine List.chain'_cons'.mpr ⟨?_, hrec.1⟩
        intro y hy
        have hym : y ∈ (runParserFrom (processChunk st c).1 cs).2 :=
          List.mem_of_mem_head? hy
        have := (hrec.2 y hym).1
        rw [hlp] at this
        exact this
      · intro q hq
        rw [runParserFrom] at hq
        simp only [hsome, List.mem_cons] at hq
        rcases hq with rfl | hq
        · exact ⟨hgt, hle⟩
        · obtain ⟨h1, h2⟩ := hrec.2 q hq
          rw [hlp] at h1
          exact ⟨lt_trans hgt h1, h2⟩

/-- A nonzero stored duration is final: no later chunk changes it. -/
theorem runParserFrom_duration_frozen (cs : List Chunk) (st : ParserState)
    (h : st.duration ≠ 0) :
    (runParserFrom st cs).1.duration = st.duration := by
  induction cs generalizing st with
  | nil => rfl
  | cons c cs ih =>
    have hd : (processChunk st c).1.duration = st.duration := by
      rw [(processChunk_spec st c).1, probeDuration_of_ne_zero st c h]
    rw [runParserFrom]
    simp only
    rw [ih (processChunk st c).1 (by rw [hd]; exact h), hd]

/-- While the stored duration is the 0 sentinel and no chunk carries a
duration marker, the parser state never changes and nothing is emitted. -/
theorem runParserFrom_no_marker (cs : List Chunk) (st : ParserState)
    (h0 : st.duration = 0) (hnone : ∀ c ∈ cs, c.dur = none) :
    (runParserFrom st cs).1 = st ∧ (runParserFrom st cs).2 = [] := by
  induction cs generalizing st with
  | nil => exact ⟨rfl, rfl⟩
  | cons c cs ih =>
    have hstep : processChunk st c = (st, none) := by
      unfold processChunk
      have hp : probeDuration st c = st := probeDuration_of_dur_none st c (hnone c (by simp))
      cases ht : c.time with
      | none => rw [hp]
      | some t =>
        simp only [hp]
        rw [if_neg (by rw [h0]; exact lt_irrefl 0)]
    have := ih st h0 (fun d hd => hnone d (List.mem_cons_of_mem _ hd))
    rw [runParserFrom, hstep]
    simpa using this

/-- A `none` result of `firstDurationMarker` means no chunk carries one. -/
theorem firstDurationMarker_none_iff (cs : List Chunk) :
    firstDurationMarker cs = none ↔ ∀ c ∈ cs, c.dur = none := by
  induction cs with
  | nil => simp [firstDurationMarker]
  | cons c cs ih =>
    rw [firstDurationMarker]
    cases hd : c.dur with
    | some d => simp [hd]
    | none => simp [hd, ih]

/-- The registry writes driven by the parser carry exactly the emitted
percentages as their `progress` fields. -/
theorem progressWrites_map_progress (cs : List Chunk) (j : Job) (st : ParserState) :
    (progressWrites j st cs).map Job.progress = (runParserFrom st cs).2 := by
  induction cs generalizing j st with
  | nil => rfl
  | cons c cs ih =>
    rw [progressWrites, runParserFrom]
    rcases hps : (processChunk st c).2 with - | p <;> simp [hps, ih]

/-- From the 0 sentinel, the first duration marker with a nonzero encoded
duration determines the final stored duration. -/
theorem runParserFrom_duration_first_marker (cs : List Chunk) (st : ParserState) (d : Hms)
    (h0 : st.duration = 0) (hfirst : firstDurationMarker cs = some d)
    (hne : d.toSeconds ≠ 0) :
    (runParserFrom st cs).1.duration = d.toSeconds := by
  induction cs generalizing st with
  | nil => simp [firstDurationMarker] at hfirst
  | cons c cs ih =>
    cases hd : c.dur with
    | some d' =>
      simp only [firstDurationMarker, hd, Option.some.injEq] at hfirst
      subst hfirst
      have hdur : (processChunk st c).1.duration = d'.toSeconds := by
        rw [(processChunk_spec st c).1, probeDuration_duration_of_zero st c d' h0 hd]
      rw [runParserFrom]
      simp only
      rw [runParserFrom_duration_frozen cs _ (by rw [hdur]; exact hne), hdur]
    | none =>
      simp only [firstDurationMarker, hd] at hfirst
      have hdur : (processChunk st c).1.duration = 0 := by
        rw [(processChunk_spec st c).1, probeDuration_of_dur_none st c hd, h0]
      rw [runParserFrom]
      simp only
      exact ih _ hdur hfirst

/-! ## Association-list lemmas for the timer table -/

theorem lookupA_insertA_self (l : List (String × Nat)) (k : String) (v : Nat) :
    lookupA (insertA l k v) k = some v := by
  simp [insertA, lookupA]

theorem lookupA_eraseA_self (l : List (String × Nat)) (k : String) :
    lookupA (eraseA l k) k = none := by
  induction l with
  | nil => rfl
  | cons e rest ih =>
    rw [eraseA, List.filter_cons]
    by_cases he : e.1 = k
    · simpa [he, eraseA] using ih
    · rw [if_pos (by simpa using he)]
      rw [lookupA, if_neg he]
      simpa [eraseA] using ih

theorem lookupA_eraseA_ne (l : List (String × Nat)) (k k' : String) (h : k' ≠ k) :
    lookupA (eraseA l k) k' = lookupA l k' := by
  induction l with
  | nil => rfl
  | cons e rest ih =>
    rw [eraseA, List.filter_cons]
    by_cases he : e.1 = k
    · rw [if_neg (by simpa using he)]
      rw [lookupA, if_neg (by rw [he]; exact fun hk => h hk.symm)]
      simpa [eraseA] using ih
    · rw [if_pos (by simpa using he)]
      rw [lookupA, lookupA]
      split
      · rfl
      · simpa [eraseA] using ih

/-- Insertion via `insertA` keeps the table's keys duplicate-free. -/
theorem insertA_keys_nodup (l : List (String × Nat)) (k : String) (v : Nat)
    (h : (l.map Prod.fst).Nodup) : ((insertA l k v).map Prod.fst).Nodup := by
  rw [insertA]
  refine List.Nodup.cons ?_ ?_
  · intro hk
    simp only [List.mem_map] at hk
    obtain ⟨e, he, hek⟩ := hk
    rw [eraseA] at he
    have := List.of_mem_filter he
    simp [hek] at this
  · rw [eraseA]
    exact h.sublist ((l.filter_sublist).map Prod.fst)

/-! ## Claim theorems -/

/-- The float comparison `stats.size / (1024*1024) > parseInt(maxSize)` agrees
with the exact integer comparison on bytes (exact for all byte counts the
5 GB upload cap admits, since both sides are far below the 2^53 float
precision bound). -/
theorem over_ceiling_iff (m b : Nat) :
    ((m : ℚ) < (b : ℚ) / (1024 * 1024)) ↔ m * 1048576 < b := by
  rw [lt_div_iff₀ (by norm_num : (0:ℚ) < 1024 * 1024)]
  rw [show ((1024 : ℚ) * 1024) = ((1048576 : ℕ) : ℚ) by norm_num]
  rw [← Nat.cast_mul, Nat.cast_lt]

/-- C6: in the remote-fetch pipeline the transcoder is invoked iff the
fetched artifact's byte size exceeds the selected preset's maximum-size
ceiling; when not over, the fetched file is renamed directly to the output
location and the transcoder is not invoked; when over, the transcoder runs
and the intermediate fetched file is deleted afterward. -/
theorem transcode_iff_over_ceiling (url jobId : String) (cfg : Preset)
    (fetchedBytes : Nat) :
    (invokesTranscoder (remoteFetchActions url jobId cfg fetchedBytes)
      ↔ cfg.maxSizeMB * 1048576 < fetchedBytes)
    ∧ (PipeAction.renameTempToOutput ∈ remoteFetchActions url jobId cfg fetchedBytes
      ↔ fetchedBytes ≤ cfg.maxSizeMB * 1048576)
    ∧ (PipeAction.unlinkTemp ∈ remoteFetchActions url jobId cfg fetchedBytes
      ↔ cfg.maxSizeMB * 1048576 < fetchedBytes) := by
  unfold remoteFetchActions
  by_cases h : (cfg.maxSizeMB : ℚ) < (fetchedBytes : ℚ) / (1024 * 1024)
  · rw [if_pos h]
    have hn := (over_ceiling_iff _ _).mp h
    refine ⟨⟨fun _ => hn,
      fun _ => ⟨compressInvocation ("temp/" ++ jobId ++ "_raw.mp4") (outputPath jobId) cfg,
        by simp⟩⟩, ?_, ?_⟩
    · constructor
      · intro hmem
        simp at hmem
      · intro hle
        exact absurd hn (not_lt.mpr hle)
    · exact ⟨fun _ => hn, fun _ => by simp⟩
  · rw [if_neg h]
    have hle : fetchedBytes ≤ cfg.maxSizeMB * 1048576 :=
      not_lt.mp (fun hlt => h ((over_ceiling_iff _ _).mpr hlt))
    refine ⟨⟨?_, fun hlt => absurd hlt (not_lt.mpr hle)⟩, ?_, ?_⟩
    · rintro ⟨inv, hi⟩
      simp at hi
    · exact ⟨fun _ => hle, fun _ => by simp⟩
    · constructor
      · intro hmem
        simp at hmem
      · intro hlt
        exact absurd hlt (not_lt.mpr hle)

/-- C3 counterexample: the `/api/download` handler of `src/server.js` passes
the downloader invocation as a single shell-interpreted string, not an
argument vector, and that string varies with (i.e. concatenates) the
user-supplied URL. -/
theorem download_cmd_shell_concatenation_cex :
    (downloadInvocation balancedPreset "temp/j_raw.mp4" "http://example.com/a").isArgv
      = false
    ∧ downloadInvocation balancedPreset "temp/j_raw.mp4" "http://example.com/a"
      = Invocation.shell (ytDlpCmd 1080 "temp/j_raw.mp4" "http://example.com/a")
    ∧ ytDlpCmd 1080 "temp/j_raw.mp4" "http://example.com/a"
      ≠ ytDlpCmd 1080 "temp/j_raw.mp4" "http://example.com/b" := by
  refine ⟨rfl, rfl, ?_⟩
  set_option maxRecDepth 4000 in decide

/-- C3 (amended): only the spawn-based variant's `spawnFFmpeg` passes the
external tool a discrete argument vector (with the file names as standalone
vector elements); the `exec`-based download and compress call sites hand the
shell a single concatenated command string. -/
theorem spawn_argv_exec_shell (input output temp url : String) (cfg : Preset) :
    (spawnFFmpegInvocation input output cfg).isArgv = true
    ∧ input ∈ spawnFFmpegArgs input output cfg
    ∧ output ∈ spawnFFmpegArgs input output cfg
    ∧ (downloadInvocation cfg temp url).isArgv = false
    ∧ (compressInvocation input output cfg).isArgv = false := by
  refine ⟨rfl, ?_, ?_, rfl, rfl⟩ <;> simp [spawnFFmpegArgs]

/-- C4 counterexample: an unrecognized preset name does not fall back to the
default — it resolves to no preset at all, and the compression job then
terminates in the failure state instead of proceeding with default
parameters. -/
theorem unknown_preset_not_defaulted_cex :
    resolvePresetField (some "ultra") = none
    ∧ (registryWrites "temp/in.mp4" "ultra" [] true "/api/download/j"
        ⟨1, 1, 0⟩).getLast? = some errorJob :=
  ⟨rfl, rfl⟩

/-- C4 (amended): the `'balanced'` fallback applies only when the preset
field is absent (destructuring default); any unrecognized name resolves to
`undefined`, and the job then fails rather than proceeding with default
parameters. -/
theorem preset_fallback_only_when_absent (inputFile downloadUrl name : String)
    (chunks : List Chunk) (ffmpegOk : Bool) (st : Stats)
    (h : presets name = none) :
    resolvePresetField none = some balancedPreset
    ∧ resolvePresetField (some name) = none
    ∧ (registryWrites inputFile name chunks ffmpegOk downloadUrl st).getLast?
      = some errorJob := by
  refine ⟨rfl, ?_, ?_⟩
  · rw [resolvePresetField]
    exact h
  · rw [registryWrites, h]
    rfl

theorem preset_fallback_only_when_absent_witness :
    resolvePresetField none = some balancedPreset
    ∧ resolvePresetField (some "ultra") = none
    ∧ (registryWrites "in.mp4" "ultra" [] true "u" ⟨1, 1, 0⟩).getLast?
      = some errorJob :=
  preset_fallback_only_when_absent "in.mp4" "u" "ultra" [] true ⟨1, 1, 0⟩ rfl

/-- The empty scheduler/registry state. -/
def emptySched : SchedState := ⟨0, [], [], [], []⟩

/-- One deletion armed for `output/a.mp4`. -/
def armedOnce : SchedState :=
  scheduleFileDeletion emptySched "output/a.mp4" 20 (some "a") 0

/-- A second deletion armed for the same path one minute later. -/
def armedTwice : SchedState :=
  scheduleFileDeletion armedOnce "output/a.mp4" 5 (some "a") 60000

/-- C2 counterexample: arming a deletion for a path that already has a
pending timer does not cancel the existing timeout — after arming
`output/a.mp4` twice, two live timers target that path (the table tracks
only the newer one). -/
theorem double_arm_two_live_timers_cex :
    (armedTwice.live.filter (fun t => t.path = "output/a.mp4")).length = 2
    ∧ armedTwice.table = [("output/a.mp4", 1)] := by
  decide

/-- C2 (amended): arming a deletion for a path that already has one
overwrites the timer-table entry (the table maps each path to at most one
timer id and its keys stay duplicate-free), but it does not cancel the
previously armed timeout — every previously live timer stays live. -/
theorem schedule_overwrites_table_without_cancel (s : SchedState) (p : String)
    (d : Nat) (j : Option String) (now : Nat) (t : Timer) (ht : t ∈ s.live)
    (hnd : (s.table.map Prod.fst).Nodup) :
    lookupA (scheduleFileDeletion s p d j now).table p = some s.nextId
    ∧ t ∈ (scheduleFileDeletion s p d j now).live
    ∧ ((scheduleFileDeletion s p d j now).table.map Prod.fst).Nodup :=
  ⟨lookupA_insertA_self _ _ _, List.mem_cons_of_mem _ ht,
    insertA_keys_nodup _ _ _ hnd⟩

theorem schedule_overwrites_table_without_cancel_witness :
    lookupA (scheduleFileDeletion armedOnce "output/a.mp4" 5 (some "a")
        60000).table "output/a.mp4" = some 1
    ∧ (⟨0, "output/a.mp4", 1200000, some "a"⟩ : Timer)
      ∈ (scheduleFileDeletion armedOnce "output/a.mp4" 5 (some "a") 60000).live
    ∧ ((scheduleFileDeletion armedOnce "output/a.mp4" 5 (some "a")
        60000).table.map Prod.fst).Nodup :=
  schedule_overwrites_table_without_cancel armedOnce "output/a.mp4" 5 (some "a")
    60000 ⟨0, "output/a.mp4", 1200000, some "a"⟩ (by decide) (by decide)

/-- An expired timer for an already-deleted file, with its job still
registered and its table entry still present. -/
def absentFileSched : SchedState :=
  { nextId := 1
    live := [⟨0, "output/j.mp4", 1000, some "j"⟩]
    table := [("output/j.mp4", 0)]
    files := []
    jobs := ["j"] }

/-- C5 counterexample: when the deletion fires on an already-absent file, the
`ENOENT` is silenced, but — contrary to the claim — the associated job
registry entry is NOT removed and the timer-table entry is NOT cleared,
because both deletions sit after `unlink` inside the `try`. -/
theorem fire_absent_skips_cleanup_cex :
    (fireTimer absentFileSched 0 2000).2 = FireOutcome.alreadyAbsent
    ∧ (fireTimer absentFileSched 0 2000).1.jobs = ["j"]
    ∧ (fireTimer absentFileSched 0 2000).1.table = [("output/j.mp4", 0)] := by
  decide

/-- C5 (amended): firing a due deletion for an absent file surfaces no error
(the `catch` silences `ENOENT`) and spends the timeout handle, but it leaves
the job registry, the timer table and the filesystem untouched — the cleanup
deletions run only after a successful `unlink`. -/
theorem fire_absent_silenced_no_cleanup (s : SchedState) (tid now : Nat) (t : Timer)
    (hfind : s.live.find? (fun u => u.id = tid) = some t)
    (hdue : t.fireAt ≤ now) (habs : t.path ∉ s.files) :
    (fireTimer s tid now).2 = FireOutcome.alreadyAbsent
    ∧ (fireTimer s tid now).1.jobs = s.jobs
    ∧ (fireTimer s tid now).1.table = s.table
    ∧ (fireTimer s tid now).1.files = s.files
    ∧ (fireTimer s tid now).1.live = s.live.filter (fun u => u.id ≠ tid) := by
  simp only [fireTimer, hfind]
  rw [if_neg (not_lt.mpr hdue), if_neg habs]
  exact ⟨rfl, rfl, rfl, rfl, rfl⟩

theorem fire_absent_silenced_no_cleanup_witness :
    (fireTimer absentFileSched 0 2000).2 = FireOutcome.alreadyAbsent
    ∧ (fireTimer absentFileSched 0 2000).1.jobs = absentFileSched.jobs
    ∧ (fireTimer absentFileSched 0 2000).1.table = absentFileSched.table
    ∧ (fireTimer absentFileSched 0 2000).1.files = absentFileSched.files
    ∧ (fireTimer absentFileSched 0 2000).1.live
      = absentFileSched.live.filter (fun u => u.id ≠ 0) :=
  fire_absent_silenced_no_cleanup absentFileSched 0 2000
    ⟨0, "output/j.mp4", 1000, some "j"⟩ (by decide) (by decide) (by decide)

/-- C10: when a retrieval of a present artifact starts and the response
stream then fails, the path is left with no pending deletion timer at all:
the pending timer is cancelled before the transfer and the short grace timer
is re-armed only on an error-free transfer.  The hypothesis says the timer
table tracks every live timer for the path, which holds on every reachable
single-completion state. -/
theorem failed_transfer_no_pending_timer (s : SchedState) (jobId : String) (now : Nat)
    (hfile : outputPath jobId ∈ s.files)
    (htrack : ∀ t ∈ s.live, t.path = outputPath jobId →
        lookupA s.table (outputPath jobId) = some t.id) :
    (downloadEndpoint s jobId now false).1 = DlResult.served
    ∧ (∀ t ∈ (downloadEndpoint s jobId now false).2.live, t.path ≠ outputPath jobId)
    ∧ lookupA (downloadEndpoint s jobId now false).2.table (outputPath jobId)
      = none := by
  simp only [downloadEndpoint]
  rw [if_pos hfile]
  simp only [Bool.false_eq_true, if_false]
  unfold cancelFileDeletion
  cases hl : lookupA s.table (outputPath jobId) with
  | none =>
    refine ⟨by trivial, ?_, hl⟩
    intro t ht hp
    have := htrack t ht hp
    rw [hl] at this
    cases this
  | some tid =>
    refine ⟨by trivial, ?_, lookupA_eraseA_self _ _⟩
    intro t ht hp
    have hmem := List.of_mem_filter ht
    have htl := List.mem_of_mem_filter ht
    have := htrack t htl hp
    rw [hl] at this
    have hid : tid = t.id := by injection this
    simp [← hid] at hmem

theorem failed_transfer_no_pending_timer_witness :
    (downloadEndpoint
        ⟨1, [⟨0, "output/j.mp4", 1200000, some "j"⟩], [("output/j.mp4", 0)],
          ["output/j.mp4"], ["j"]⟩ "j" 100 false).1 = DlResult.served
    ∧ (∀ t ∈ (downloadEndpoint
        ⟨1, [⟨0, "output/j.mp4", 1200000, some "j"⟩], [("output/j.mp4", 0)],
          ["output/j.mp4"], ["j"]⟩ "j" 100 false).2.live, t.path ≠ outputPath "j")
    ∧ lookupA (downloadEndpoint
        ⟨1, [⟨0, "output/j.mp4", 1200000, some "j"⟩], [("output/j.mp4", 0)],
          ["output/j.mp4"], ["j"]⟩ "j" 100 false).2.table (outputPath "j") = none :=
  failed_transfer_no_pending_timer
    ⟨1, [⟨0, "output/j.mp4", 1200000, some "j"⟩], [("output/j.mp4", 0)],
      ["output/j.mp4"], ["j"]⟩ "j" 100 (by decide) (by decide)

/-- The scheduler state right after a successful completion of job `jid` at
time `t0`: the artifact is on disk, the job is registered, and the
orchestrator has armed the 20-minute default deletion. -/
def postCompletionState (jid : String) (t0 : Nat) : SchedState :=
  armCompletionRetention ⟨0, [], [], [outputPath jid], [jid]⟩ jid t0

/-- The state after a first successful retrieval at time `t1`. -/
def postRetrievalState (jid : String) (t0 t1 : Nat) : SchedState :=
  (downloadEndpoint (postCompletionState jid t0) jid t1 true).2

/-- C8: completion arms the 20-minute default deletion for the artifact; a
successful retrieval cancels that timer and re-arms a strictly shorter
5-minute grace deletion for the same path; the grace timer cannot fire
before its deadline, so a second retrieval before grace expiry still
succeeds. -/
theorem retrieval_rearms_short_grace (jid : String) (t0 t1 t2 : Nat)
    (h2 : t2 < t1 + delayMs 5) :
    (postCompletionState jid t0).live
      = [⟨0, outputPath jid, t0 + delayMs 20, some jid⟩]
    ∧ (downloadEndpoint (postCompletionState jid t0) jid t1 true).1
      = DlResult.served
    ∧ (postRetrievalState jid t0 t1).live
      = [⟨1, outputPath jid, t1 + delayMs 5, some jid⟩]
    ∧ delayMs 5 < delayMs 20
    ∧ (fireTimer (postRetrievalState jid t0 t1) 1 t2).2 = FireOutcome.notFired
    ∧ (fireTimer (postRetrievalState jid t0 t1) 1 t2).1
      = postRetrievalState jid t0 t1
    ∧ (downloadEndpoint (postRetrievalState jid t0 t1) jid t2 true).1
      = DlResult.served := by
  have hpost : postRetrievalState jid t0 t1 =
      ⟨2, [⟨1, outputPath jid, t1 + delayMs 5, some jid⟩],
        [(outputPath jid, 1)], [outputPath jid], [jid]⟩ := by
    unfold postRetrievalState downloadEndpoint postCompletionState
      armCompletionRetention scheduleFileDeletion cancelFileDeletion
    simp [insertA, eraseA, lookupA]
  refine ⟨by simp [postCompletionState, armCompletionRetention, scheduleFileDeletion],
    ?_, ?_, by decide, ?_, ?_, ?_⟩
  · unfold downloadEndpoint postCompletionState armCompletionRetention
      scheduleFileDeletion
    simp
  · rw [hpost]
  · rw [hpost]
    simp only [fireTimer, List.find?]
    simp [if_pos h2]
  · rw [hpost]
    simp only [fireTimer, List.find?]
    simp [if_pos h2]
  · rw [hpost]
    unfold downloadEndpoint
    simp

theorem retrieval_rearms_short_grace_witness :
    (postCompletionState "j" 0).live
      = [⟨0, outputPath "j", 0 + delayMs 20, some "j"⟩]
    ∧ (downloadEndpoint (postCompletionState "j" 0) "j" 10 true).1
      = DlResult.served
    ∧ (postRetrievalState "j" 0 10).live
      = [⟨1, outputPath "j", 10 + delayMs 5, some "j"⟩]
    ∧ delayMs 5 < delayMs 20
    ∧ (fireTimer (postRetrievalState "j" 0 10) 1 20).2 = FireOutcome.notFired
    ∧ (fireTimer (postRetrievalState "j" 0 10) 1 20).1 = postRetrievalState "j" 0 10
    ∧ (downloadEndpoint (postRetrievalState "j" 0 10) "j" 20 true).1
      = DlResult.served :=
  retrieval_rearms_short_grace "j" 0 10 20 (by decide)

/-- The last registry write of a `/api/compress` job is the success record
when the preset resolved and ffmpeg succeeded, and the error record
otherwise. -/
theorem registryWrites_getLast (inputFile presetName downloadUrl : String)
    (chunks : List Chunk) (ffmpegOk : Bool) (st : Stats) :
    (registryWrites inputFile presetName chunks ffmpegOk downloadUrl st).getLast?
      = some (if (presets presetName).isSome && ffmpegOk then
          completeJob downloadUrl st else errorJob) := by
  rw [registryWrites]
  cases hp : presets presetName with
  | none => simp
  | some cfg =>
    simp only [Option.isSome_some, Bool.true_and]
    rw [show intakeJob inputFile presetName ::
          compressingWrite (intakeJob inputFile presetName) ::
          (progressWrites (compressingWrite (intakeJob inputFile presetName))
              ParserState.init chunks
            ++ [if ffmpegOk then completeJob downloadUrl st else errorJob])
        = (intakeJob inputFile presetName ::
            compressingWrite (intakeJob inputFile presetName) ::
            progressWrites (compressingWrite (intakeJob inputFile presetName))
              ParserState.init chunks)
          ++ [if ffmpegOk then completeJob downloadUrl st else errorJob] by simp]
    rw [List.getLast?_concat]

/-- The two-chunk stderr stream whose first duration marker encodes
0 seconds and whose second encodes 60 seconds. -/
def zeroThenRealDuration : List Chunk :=
  [⟨some ⟨0, 0, 0⟩, none⟩, ⟨some ⟨0, 1, 0⟩, none⟩]

/-- C7 counterexample: the duration value is not always set from the first
duration marker observed — a first marker encoding 0 seconds leaves the
0 sentinel in place (the probe runs only while `duration === 0`), so a later
marker still sets the duration. -/
theorem duration_reset_after_zero_marker_cex :
    firstDurationMarker zeroThenRealDuration = some ⟨0, 0, 0⟩
    ∧ Hms.toSeconds ⟨0, 0, 0⟩ = 0
    ∧ (runParser zeroThenRealDuration).1.duration = 60 := by
  refine ⟨rfl, by norm_num [Hms.toSeconds], ?_⟩
  norm_num [runParser, runParserFrom, processChunk, probeDuration,
    ParserState.init, Hms.toSeconds]

/-- C7 (amended): the progress parser (i) fixes the duration from the first
duration marker encoding a nonzero duration (a zero-duration marker leaves
the sentinel, so a later marker may still set it); (ii) emits a strictly
increasing sequence of percentages, each positive and at most 99 — in
particular 100 is never emitted; (iii) emits nothing at all when no duration
marker is ever observed. -/
theorem progress_parser_spec (cs : List Chunk) :
    (∀ d : Hms, firstDurationMarker cs = some d → d.toSeconds ≠ 0 →
        (runParser cs).1.duration = d.toSeconds)
    ∧ List.Chain' (· < ·) (runParser cs).2
    ∧ (∀ p ∈ (runParser cs).2, 0 < p ∧ p ≤ 99)
    ∧ (firstDurationMarker cs = none → (runParser cs).2 = []) := by
  refine ⟨?_, (runParserFrom_emissions cs ParserState.init).1, ?_, ?_⟩
  · intro d hd hne
    exact runParserFrom_duration_first_marker cs ParserState.init d rfl hd hne
  · intro p hp
    have h := (runParserFrom_emissions cs ParserState.init).2 p hp
    exact ⟨h.1, h.2⟩
  · intro h
    exact (runParserFrom_no_marker cs ParserState.init rfl
      ((firstDurationMarker_none_iff cs).mp h)).2

/-- A stream with one 90-second duration marker and a 45-second time marker. -/
def singleMarkerStream : List Chunk := [⟨some ⟨0, 0, 90⟩, some ⟨0, 0, 45⟩⟩]

/-- A stream with a time marker but no duration marker. -/
def noMarkerStream : List Chunk := [⟨none, some ⟨0, 0, 5⟩⟩]

theorem progress_parser_spec_witness :
    (runParser singleMarkerStream).1.duration = Hms.toSeconds ⟨0, 0, 90⟩
    ∧ List.Chain' (· < ·) (runParser singleMarkerStream).2
    ∧ (0 < (50:ℤ) ∧ (50:ℤ) ≤ 99)
    ∧ (runParser noMarkerStream).2 = [] := by
  have h50 : (50:ℤ) ∈ (runParser singleMarkerStream).2 := by
    norm_num [runParser, runParserFrom, processChunk, probeDuration,
      ParserState.init, Hms.toSeconds]
  exact ⟨(progress_parser_spec singleMarkerStream).1 ⟨0, 0, 90⟩ rfl
      (by norm_num [Hms.toSeconds]),
    (progress_parser_spec singleMarkerStream).2.1,
    (progress_parser_spec singleMarkerStream).2.2.1 50 h50,
    (progress_parser_spec noMarkerStream).2.2.2 rfl⟩

/-- C1 counterexample: a job that enters compression (progress 5) and whose
ffmpeg run then fails gets its progress written back to 0 by the terminal
failure write — the observed sequence [0, 5, 0] is not non-decreasing, and
the failed job's final progress 0 is not its last pre-failure value 5. -/
theorem progress_reset_on_failure_cex :
    progressTrace "temp/in.mp4" "balanced" [] false "/api/download/j" ⟨1, 1, 0⟩
      = [0, 5, 0]
    ∧ ¬ List.Chain' (· ≤ ·) ([0, 5, 0] : List ℤ)
    ∧ (0:ℤ) ≠ 5 :=
  ⟨rfl, by simp [List.chain'_cons], by decide⟩

/-- C1 (amended): the registry progress values over a job's lifetime are 0
at intake, 5 on the transition into compression, then the parser's strictly
increasing emissions each in [1, 99] (the first of which may lie below 5),
and exactly one terminal write: 100 when the preset resolved and ffmpeg
succeeded, and 0 — a reset, not the last pre-failure value — on failure.
Consequently the trace ends at, and contains, 100 exactly for success. -/
theorem progress_trace_characterization (inputFile presetName downloadUrl : String)
    (chunks : List Chunk) (ffmpegOk : Bool) (st : Stats) :
    ((progressTrace inputFile presetName chunks ffmpegOk downloadUrl st).getLast?
      = some (if (presets presetName).isSome && ffmpegOk then 100 else 0))
    ∧ ((100:ℤ) ∈ progressTrace inputFile presetName chunks ffmpegOk downloadUrl st
        ↔ ((presets presetName).isSome && ffmpegOk) = true)
    ∧ List.Chain' (· < ·)
        ((progressWrites (compressingWrite (intakeJob inputFile presetName))
          ParserState.init chunks).map Job.progress)
    ∧ (∀ p ∈ (progressWrites (compressingWrite (intakeJob inputFile presetName))
          ParserState.init chunks).map Job.progress, 0 < p ∧ p ≤ 99) := by
  have hmap := progressWrites_map_progress chunks
    (compressingWrite (intakeJob inputFile presetName)) ParserState.init
  have hem := runParserFrom_emissions chunks ParserState.init
  refine ⟨?_, ?_, ?_, ?_⟩
  · rw [progressTrace, List.getLast?_map, registryWrites_getLast]
    cases hc : ((presets presetName).isSome && ffmpegOk) <;> simp [completeJob, errorJob]
  · rw [progressTrace, registryWrites]
    cases hp : presets presetName with
    | none =>
      simp only [Option.isSome_none, Bool.false_and]
      constructor
      · intro hmem
        simp [intakeJob, compressingWrite, errorJob] at hmem
      · intro hmem
        cases hmem
    | some cfg =>
      simp only [Option.isSome_some, Bool.true_and]
      simp only [List.map_cons, List.map_append, List.mem_cons, List.mem_append]
      constructor
      · rintro (h1 | h1 | h1 | h1)
        · simp [intakeJob] at h1
        · simp [compressingWrite, intakeJob] at h1
        · rw [hmap] at h1
          have := (hem.2 100 h1).2
          omega
        · simp only [List.map_cons, List.map_nil, List.mem_singleton] at h1
          cases hok : ffmpegOk with
          | false =>
            rw [hok] at h1
            simp [errorJob] at h1
          | true => rfl
      · intro hok
        rw [hok]
        simp [completeJob]
  · rw [hmap]
    exact hem.1
  · intro p hp
    rw [hmap] at hp
    have h := hem.2 p hp
    exact ⟨h.1, h.2⟩

theorem progress_trace_characterization_witness :
    ((progressTrace "in.mp4" "balanced" [] true "u" ⟨8, 3, 63⟩).getLast? = some 100)
    ∧ ((100:ℤ) ∈ progressTrace "in.mp4" "balanced" [] true "u" ⟨8, 3, 63⟩ ↔
        ((presets "balanced").isSome && true) = true)
    ∧ List.Chain' (· < ·)
        ((progressWrites (compressingWrite (intakeJob "in.mp4" "balanced"))
          ParserState.init []).map Job.progress)
    ∧ (∀ p ∈ (progressWrites (compressingWrite (intakeJob "in.mp4" "balanced"))
          ParserState.init []).map Job.progress, 0 < p ∧ p ≤ 99) :=
  progress_trace_characterization "in.mp4" "balanced" "u" [] true ⟨8, 3, 63⟩

/-- C9: every terminal transition replaces the job's registry snapshot
wholesale: the final snapshot of any `/api/compress` run is exactly the
fresh success record or the fresh error record, and in particular no longer
carries the intake fields `inputFile` and `preset`. -/
theorem terminal_write_replaces_snapshot (inputFile presetName downloadUrl : String)
    (chunks : List Chunk) (ffmpegOk : Bool) (st : Stats) (j : Job)
    (hj : (registryWrites inputFile presetName chunks ffmpegOk downloadUrl st).getLast?
      = some j) :
    j.inputFile = none ∧ j.preset = none
    ∧ (j = completeJob downloadUrl st ∨ j = errorJob) := by
  rw [registryWrites_getLast] at hj
  have hj' : j = if (presets presetName).isSome && ffmpegOk then
      completeJob downloadUrl st else errorJob := by
    injection hj.symm
  cases hc : ((presets presetName).isSome && ffmpegOk) <;> rw [hc] at hj' <;> subst hj'
  · exact ⟨rfl, rfl, Or.inr rfl⟩
  · exact ⟨rfl, rfl, Or.inl rfl⟩

theorem terminal_write_replaces_snapshot_witness :
    (completeJob "u" ⟨10, 4, 60⟩).inputFile = none
    ∧ (completeJob "u" ⟨10, 4, 60⟩).preset = none
    ∧ (completeJob "u" ⟨10, 4, 60⟩ = completeJob "u" ⟨10, 4, 60⟩
        ∨ completeJob "u" ⟨10, 4, 60⟩ = errorJob) :=
  terminal_write_replaces_snapshot "in.mp4" "balanced" "u" [] true ⟨10, 4, 60⟩
    (completeJob "u" ⟨10, 4, 60⟩) rfl

end GameRun
